import Mathlib

/-!
Verification of the CSet ordered-integer-set implementation (src/samt5.c).

The C type `CSet` holds `Capacity : uint32_t`, `Usage : uint32_t` and
`Data : int32_t*`.  We embed it shallowly: counts are `Nat`, element values
are `Int`, and the owned buffer is a `List Int` whose length equals
`Capacity` for proper sets (a NULL buffer is the empty list).  All loops of
the C source are translated into structurally or well-foundedly recursive
functions; array reads `Data[k]` become `List.getD k 0` (the default is
irrelevant: every read performed on a proper set is in bounds), and array
writes become `List.set`.  The reachable arithmetic never exercises
`uint32_t` wraparound (indices stay below `Capacity`, which the claims'
regime keeps far below `2^32`), so `Nat` arithmetic is faithful; the one
signed computation, the midpoint `(min + max) / 2` of the binary search in
`CSet_Contains`, is reproduced on `Int` (both operands are nonnegative at
every evaluation that the guard reaches, where C truncating division and
Lean's division agree).
-/

namespace CSetImpl

/-- The FILLER value `INT32_MIN` marking logically empty cells. -/
def sentinel : Int := -(2 ^ 31)

/-- The C struct `CSet`: `Capacity`, `Usage`, and the owned buffer `Data`
(a NULL pointer is modelled by the empty list). -/
structure CSet where
  Capacity : Nat
  Usage : Nat
  Data : List Int
deriving Repr, DecidableEq

/-- The elements stored in the set: slots `Data[0 : Usage-1]`. -/
def elems (s : CSet) : List Int := s.Data.take s.Usage

/-- Properness of a `CSet` (source header lines 20-27 together with the
spec's sortedness invariant): the buffer has exactly `Capacity` slots,
`Usage ≤ Capacity`, slots `[0, Usage)` are strictly ascending, and slots
`[Usage, Capacity)` hold the sentinel. -/
def Proper (s : CSet) : Prop :=
  s.Data.length = s.Capacity ∧ s.Usage ≤ s.Capacity ∧
    List.Pairwise (· < ·) (elems s) ∧ ∀ x ∈ s.Data.drop s.Usage, x = sentinel

instance (s : CSet) : Decidable (Proper s) := by
  unfold Proper elems; infer_instance

/-- `CSet_Init` (lines 58-79).  `alloc` tells whether the `malloc` for a
positive size succeeds.  On failure the set is left with `Capacity = 0`,
`Usage = 0`, `Data = NULL`; on success the buffer is sentinel-filled. -/
def CSet_Init (alloc : Bool) (Sz : Nat) : Bool × CSet :=
  if 0 < Sz then
    if alloc then (true, ⟨Sz, 0, List.replicate Sz sentinel⟩)
    else (false, ⟨0, 0, []⟩)
  else (true, ⟨0, 0, []⟩)

/-- The duplicate-checking scan of the in-place insert path
(lines 105-118): returns `none` when `Value` is already present, otherwise
`some i` where `i` is the first index with `Data[i] ≥ Value` (or `Usage`). -/
def insScan (d : List Int) (v : Int) (i u : Nat) : Option Nat :=
  if i < u then
    if d.getD i 0 = v then none
    else if d.getD i 0 < v then insScan d v (i + 1) u
    else some i
  else some i
termination_by u - i

/-- The right-shift loop of the in-place insert path (lines 119-123):
`Data[j] = Data[j-1]` for `j` descending from `Usage + 1` to `i + 1`. -/
def shiftR (d : List Int) (i j : Nat) : List Int :=
  if i < j then shiftR (d.set j (d.getD (j - 1) 0)) i (j - 1) else d
termination_by j - i

/-- The merge loop of the growth path of `CSet_Insert` (lines 135-146),
which writes `Usage + 1` slots of the new buffer: while `i < Usage + 1`,
copy `Data[j]` when `j < Usage ∧ Data[j] < Value`, else write `Value`
(without advancing `j`).  Returns the list of written values. -/
def growMerge (d : List Int) (v : Int) (u i j : Nat) : List Int :=
  if i < u + 1 then
    if j < u ∧ d.getD j 0 < v then d.getD j 0 :: growMerge d v u (i + 1) (j + 1)
    else v :: growMerge d v u (i + 1) j
  else []
termination_by u + 1 - i

/-- `CSet_Insert` (lines 99-156).  `alloc` tells whether the `malloc` of
the growth path succeeds.  Returns the result together with the new value
of `*pSet`. -/
def CSet_Insert (alloc : Bool) (s : CSet) (v : Int) : Bool × CSet :=
  if s.Data = [] then (false, s)
  else if s.Usage + 1 < s.Capacity then
    match insScan s.Data v 0 s.Usage with
    | none => (false, s)
    | some i =>
        (true, ⟨s.Capacity, s.Usage + 1, (shiftR s.Data i (s.Usage + 1)).set i v⟩)
  else
    let capacity := if s.Capacity = 0 then 1 else s.Capacity
    if alloc then
      let merged := growMerge s.Data v s.Usage 0 0
      (true, ⟨capacity * 2, s.Usage + 1,
        merged ++ List.replicate (capacity * 2 - (s.Usage + 1)) sentinel⟩)
    else (false, s)

/-- The search loop of `CSet_Remove` (lines 178-189): the first index
`k ∈ [i, u)` with `d[k] = v`, or `none`. -/
def scan (d : List Int) (v : Int) (i u : Nat) : Option Nat :=
  if i < u then
    if d.getD i 0 = v then some i else scan d v (i + 1) u
  else none
termination_by u - i

/-- The left-shift loop of `CSet_Remove` (lines 196-199):
`Data[k] = Data[k+1]` for `k` ascending from `i` to `u - 2` (every call
site has `u ≥ 2`, where the stated guard agrees with the source's
`i <= Usage - 2`). -/
def shiftL (d : List Int) (i u : Nat) : List Int :=
  if i + 2 ≤ u then shiftL (d.set i (d.getD (i + 1) 0)) (i + 1) u else d
termination_by u - i

theorem scan_isSome_lt {d : List Int} {v : Int} {i u j : Nat}
    (h : scan d v i u = some j) : j < u := by
  induction i, u using scan.induct d v with
  | case1 i u hiu heq =>
    rw [scan, if_pos hiu, if_pos heq] at h
    simp only [Option.some.injEq] at h
    omega
  | case2 i u hiu hne ih =>
    rw [scan, if_pos hiu, if_neg hne] at h; exact ih h
  | case3 i u hiu => rw [scan, if_neg hiu] at h; exact absurd h (by simp)

/-- `CSet_Remove` (lines 177-205), including the recursive re-invocation
performed after the left shift (line 201) and the subsequent write of the
sentinel at slot `Usage` (line 202). -/
def CSet_Remove (s : CSet) (v : Int) : Bool × CSet :=
  match h : scan s.Data v 0 s.Usage with
  | none => (false, s)
  | some i =>
    if i = s.Usage - 1 then
      (true, ⟨s.Capacity, s.Usage - 1, s.Data.set i sentinel⟩)
    else
      let s1 : CSet := ⟨s.Capacity, s.Usage - 1, shiftL s.Data i s.Usage⟩
      let s2 := (CSet_Remove s1 v).2
      (true, ⟨s2.Capacity, s2.Usage, s2.Data.set s2.Usage sentinel⟩)
termination_by s.Usage
decreasing_by
  have hlt := scan_isSome_lt h
  show s.Usage - 1 < s.Usage
  omega

/-- The binary-search loop of `CSet_Contains` (lines 222-241), on signed
bounds exactly as in the source. -/
def bsearchAux (d : List Int) (v : Int) (lo hi : Int) : Bool :=
  if h : lo ≤ hi then
    if d.getD ((lo + hi) / 2).toNat 0 = v then true
    else if v < d.getD ((lo + hi) / 2).toNat 0 then bsearchAux d v lo ((lo + hi) / 2 - 1)
    else bsearchAux d v ((lo + hi) / 2 + 1) hi
  else false
termination_by (hi + 1 - lo).toNat
decreasing_by
  all_goals omega

/-- `CSet_Contains` (lines 220-243): empty guard, then binary search over
`[0, Usage - 1]`. -/
def CSet_Contains (s : CSet) (v : Int) : Bool :=
  if s.Usage = 0 then false
  else bsearchAux s.Data v 0 ((s.Usage : Int) - 1)

/-- The two-pointer loop of `CSet_isSubsetOf` (lines 293-305), faithfully
including that the branch for `A[a] > B[b]` advances `a` and returns false
only when `b` has reached `B.Usage - 1`. -/
def subAux (A B : List Int) (An Bn a b : Nat) : Bool :=
  if a < An ∧ b < Bn then
    if B.getD b 0 < A.getD a 0 then
      if b = Bn - 1 then false else subAux A B An Bn (a + 1) b
    else if A.getD a 0 = B.getD b 0 then subAux A B An Bn (a + 1) (b + 1)
    else false
  else !(a < An : Bool)
termination_by An - a

/-- `CSet_isSubsetOf` (lines 286-307). -/
def CSet_isSubsetOf (A B : CSet) : Bool :=
  if A.Usage > B.Usage then false
  else subAux A.Data B.Data A.Usage B.Usage 0 0

/-- The two-pointer merge of `CSet_Intersection` (lines 338-350), as a
recursion over the suffixes `A.Data[a : A.Usage-1]`, `B.Data[b : B.Usage-1]`
still to be scanned: advance the pointer of the smaller head, append on a
match.  Returns the appended values, in order of appending. -/
def interMerge : List Int → List Int → List Int
  | x :: xs, y :: ys =>
    if x < y then interMerge xs (y :: ys)
    else if y < x then interMerge (x :: xs) ys
    else x :: interMerge xs ys
  | _, [] => []
  | [], _ => []

/-- `CSet_Intersection` (lines 329-360).  `alloc` tells whether the
`malloc` of the fresh buffer succeeds; the new buffer is fully built from
`a` and `b` before `out`'s old buffer is released, so the resulting value
of `*pIntersection` does not depend on `out` (which is how the source is
safe under aliasing). -/
def CSet_Intersection (alloc : Bool) (out a b : CSet) : Bool × CSet :=
  let capacity := if a.Capacity > b.Capacity then b.Capacity else a.Capacity
  if alloc then
    let l := interMerge (elems a) (elems b)
    (true, ⟨capacity, l.length, l ++ List.replicate (capacity - l.length) sentinel⟩)
  else (false, out)

/-- The three-way merge of `CSet_SymDifference` (lines 387-416), over the
unscanned suffixes: a value in both is skipped, a value in exactly one is
appended; once one side is exhausted the rest of the other is appended. -/
def symMerge : List Int → List Int → List Int
  | x :: xs, y :: ys =>
    if x = y then symMerge xs ys
    else if x < y then x :: symMerge xs (y :: ys)
    else y :: symMerge (x :: xs) ys
  | xs, [] => xs
  | [], ys => ys

/-- `CSet_SymDifference` (lines 380-428). -/
def CSet_SymDifference (alloc : Bool) (out a b : CSet) : Bool × CSet :=
  let capacity := a.Capacity + b.Capacity
  if alloc then
    let l := symMerge (elems a) (elems b)
    (true, ⟨capacity, l.length, l ++ List.replicate (capacity - l.length) sentinel⟩)
  else (false, out)

/-- `CSet_Copy` (lines 450-468).  `same` models the pointer-identity test
`pTarget == pSource`; `alloc` tells whether the `malloc` succeeds (on
failure the old buffer is restored and `*pTarget` is unchanged). -/
def CSet_Copy (same alloc : Bool) (t s : CSet) : Bool × CSet :=
  if same then (true, t)
  else if alloc then
    (true, ⟨s.Capacity, s.Usage, (List.range s.Capacity).map fun k => s.Data.getD k 0⟩)
  else (false, t)

/-- C1: refuted — `CSet_isSubsetOf` does not return true iff every element
of `a` occurs in `b`.  For the proper sets `a = {2}` (capacity 1) and
`b = {1, 3}` (capacity 2) the code returns true although `2 ∉ b`: the
branch for `A[a] > B[b]` (line 294) advances `a` instead of `b`, so the
loop runs off the end of `a` without ever matching `2`. -/
theorem c1_isSubsetOf_bug :
    Proper ⟨1, 1, [2]⟩ ∧ Proper ⟨2, 2, [1, 3]⟩ ∧
    CSet_isSubsetOf ⟨1, 1, [2]⟩ ⟨2, 2, [1, 3]⟩ = true ∧
    (2 : Int) ∈ elems ⟨1, 1, [2]⟩ ∧ (2 : Int) ∉ elems ⟨2, 2, [1, 3]⟩ := by
  refine ⟨by decide, by decide, ?_, by decide, by decide⟩
  simp [CSet_isSubsetOf, subAux]

/-- C2: refuted — the sortedness invariant does not survive every
`insert`/`remove` sequence.  Starting from `init(3)` and inserting 5, 7
and then 1, the third insert takes the growth path, whose merge loop
(lines 137-146) keeps writing `Value` once it has been placed instead of
copying the remaining old elements: the result stores `[1, 1, 1]`, which
is not strictly ascending, and the set is no longer proper. -/
theorem c2_sortedness_bug :
    CSet_Insert true
        (CSet_Insert true (CSet_Insert true (CSet_Init true 3).2 5).2 7).2 1 =
      (true, ⟨6, 3, [1, 1, 1, sentinel, sentinel, sentinel]⟩) ∧
    ¬ List.Pairwise (· < ·) (elems ⟨6, 3, [1, 1, 1, sentinel, sentinel, sentinel]⟩) ∧
    ¬ Proper ⟨6, 3, [1, 1, 1, sentinel, sentinel, sentinel]⟩ := by
  refine ⟨?_, by decide, by decide⟩
  simp [CSet_Insert, CSet_Init, insScan, shiftR, growMerge, sentinel]

/-- C3: refuted — inserting an already-present value is not always a
failing no-op.  After `init(2)` and `insert(5)` the proper set `{5}` has
`Usage + 1 = Capacity`, so a second `insert(5)` takes the growth path
(lines 127-153), which performs no duplicate check: it returns true and
produces `[5, 5, sentinel, sentinel]` with `Usage = 2`, so the second
call in a row reports success and changes the cardinality. -/
theorem c3_insert_duplicate_bug :
    CSet_Insert true (CSet_Init true 2).2 5 = (true, ⟨2, 1, [5, sentinel]⟩) ∧
    Proper ⟨2, 1, [5, sentinel]⟩ ∧ (5 : Int) ∈ elems ⟨2, 1, [5, sentinel]⟩ ∧
    CSet_Insert true ⟨2, 1, [5, sentinel]⟩ 5 =
      (true, ⟨4, 2, [5, 5, sentinel, sentinel]⟩) := by
  refine ⟨?_, by decide, by decide, ?_⟩
  · simp [CSet_Insert, CSet_Init, insScan, shiftR, sentinel]
  · simp [CSet_Insert, growMerge, sentinel]

/-- C4: refuted — the growth path corrupts the set unless the new value
exceeds every stored element, and a capacity-0 set cannot grow at all.
For the proper full set `{1, 5}` (capacity 2) and the absent value 3, the
merge loop (lines 137-146) produces `[1, 3, 3, sentinel]`: the old
element 5 is lost and 3 is written twice.  For a set initialized with
capacity 0 the guard at line 100 (`Data == NULL`) makes `insert` return
false without ever reaching the growth code. -/
theorem c4_growth_bug :
    Proper ⟨2, 2, [1, 5]⟩ ∧ (3 : Int) ∉ elems ⟨2, 2, [1, 5]⟩ ∧
    CSet_Insert true ⟨2, 2, [1, 5]⟩ 3 = (true, ⟨4, 3, [1, 3, 3, sentinel]⟩) ∧
    (5 : Int) ∈ elems ⟨2, 2, [1, 5]⟩ ∧
    (5 : Int) ∉ elems ⟨4, 3, [1, 3, 3, sentinel]⟩ ∧
    Proper ⟨0, 0, []⟩ ∧ CSet_Insert true ⟨0, 0, []⟩ 7 = (false, ⟨0, 0, []⟩) := by
  refine ⟨by decide, by decide, ?_, by decide, by decide, by decide,
    by simp [CSet_Insert]⟩
  simp [CSet_Insert, growMerge, sentinel]

/-- C9: every allocating operation reports allocation failure through its
boolean result and leaves the receiving set unchanged, except `CSet_Init`,
which leaves the canonical empty proper state `⟨0, 0, NULL⟩`.  (`insert`
is stated for every failure: the duplicate and NULL-data failures are
no-ops as well.) -/
theorem c9_alloc_failure_atomic :
    (∀ Sz : Nat, 0 < Sz → CSet_Init false Sz = (false, ⟨0, 0, []⟩)) ∧
    (∀ (alloc : Bool) (s : CSet) (v : Int),
      (CSet_Insert alloc s v).1 = false → (CSet_Insert alloc s v).2 = s) ∧
    (∀ out a b : CSet, CSet_Intersection false out a b = (false, out)) ∧
    (∀ out a b : CSet, CSet_SymDifference false out a b = (false, out)) ∧
    (∀ (same : Bool) (t s : CSet),
      (CSet_Copy same false t s).1 = false → (CSet_Copy same false t s).2 = t) := by
  refine ⟨fun Sz h => by simp [CSet_Init, h], fun alloc s v h => ?_,
    fun out a b => by simp [CSet_Intersection], fun out a b => by simp [CSet_SymDifference],
    fun same t s h => ?_⟩
  · by_cases h1 : s.Data = []
    · simp [CSet_Insert, h1]
    · by_cases h2 : s.Usage + 1 < s.Capacity
      · cases h3 : insScan s.Data v 0 s.Usage with
        | none => simp [CSet_Insert, h1, h2, h3]
        | some i => simp [CSet_Insert, h1, h2, h3] at h
      · cases alloc with
        | false => simp [CSet_Insert, h1, h2]
        | true => simp [CSet_Insert, h1, h2] at h
  · by_cases h1 : same = true
    · simp [CSet_Copy, h1] at h
    · simp at h1; simp [CSet_Copy, h1]

/-- Witness for C9 at concrete inputs. -/
theorem c9_alloc_failure_atomic_witness :
    CSet_Init false 2 = (false, ⟨0, 0, []⟩) ∧
    (CSet_Insert false ⟨2, 2, [1, 5]⟩ 3).2 = ⟨2, 2, [1, 5]⟩ ∧
    CSet_Intersection false ⟨1, 1, [9]⟩ ⟨2, 2, [1, 5]⟩ ⟨1, 1, [5]⟩ =
      (false, ⟨1, 1, [9]⟩) ∧
    CSet_SymDifference false ⟨1, 1, [9]⟩ ⟨2, 2, [1, 5]⟩ ⟨1, 1, [5]⟩ =
      (false, ⟨1, 1, [9]⟩) ∧
    (CSet_Copy false false ⟨1, 1, [9]⟩ ⟨2, 2, [1, 5]⟩).2 = ⟨1, 1, [9]⟩ :=
  ⟨c9_alloc_failure_atomic.1 2 (by decide),
   c9_alloc_failure_atomic.2.1 false ⟨2, 2, [1, 5]⟩ 3 (by decide),
   c9_alloc_failure_atomic.2.2.1 ⟨1, 1, [9]⟩ ⟨2, 2, [1, 5]⟩ ⟨1, 1, [5]⟩,
   c9_alloc_failure_atomic.2.2.2.1 ⟨1, 1, [9]⟩ ⟨2, 2, [1, 5]⟩ ⟨1, 1, [5]⟩,
   c9_alloc_failure_atomic.2.2.2.2 false ⟨1, 1, [9]⟩ ⟨2, 2, [1, 5]⟩ (by decide)⟩

theorem scan_eq_some {d : List Int} {v : Int} {i u j : Nat}
    (h : scan d v i u = some j) :
    i ≤ j ∧ j < u ∧ d.getD j 0 = v ∧ ∀ k, i ≤ k → k < j → d.getD k 0 ≠ v := by
  induction i, u using scan.induct d v with
  | case1 i u hiu heq =>
    rw [scan, if_pos hiu, if_pos heq] at h
    simp only [Option.some.injEq] at h
    subst h
    exact ⟨le_refl _, hiu, heq, fun k hk1 hk2 => absurd hk2 (by omega)⟩
  | case2 i u hiu hne ih =>
    rw [scan, if_pos hiu, if_neg hne] at h
    obtain ⟨h1, h2, h3, h4⟩ := ih h
    refine ⟨by omega, h2, h3, fun k hk1 hk2 => ?_⟩
    rcases Nat.eq_or_lt_of_le hk1 with rfl | hk
    · exact hne
    · exact h4 k hk hk2
  | case3 i u hiu => rw [scan, if_neg hiu] at h; exact absurd h (by simp)

theorem scan_eq_none {d : List Int} {v : Int} {i u : Nat} :
    scan d v i u = none ↔ ∀ k, i ≤ k → k < u → d.getD k 0 ≠ v := by
  induction i, u using scan.induct d v with
  | case1 i u hiu heq =>
    rw [scan, if_pos hiu, if_pos heq]
    constructor
    · intro h; exact absurd h (by simp)
    · intro h; exact absurd heq (h i le_rfl hiu)
  | case2 i u hiu hne ih =>
    rw [scan, if_pos hiu, if_neg hne, ih]
    constructor
    · intro h k hk1 hk2
      rcases Nat.eq_or_lt_of_le hk1 with rfl | hk
      · exact hne
      · exact h k hk hk2
    · intro h k hk1 hk2; exact h k (by omega) hk2
  | case3 i u hiu =>
    rw [scan, if_neg hiu]
    constructor
    · intro _ k hk1 hk2; exact absurd hk2 (by omega)
    · intro _; rfl

theorem mem_take_iff {d : List Int} {u : Nat} (hu : u ≤ d.length) {v : Int} :
    v ∈ d.take u ↔ ∃ k, k < u ∧ d.getD k 0 = v := by
  rw [List.mem_iff_getElem]
  constructor
  · rintro ⟨n, hn, he⟩
    have hlt : n < u := by
      have := List.length_take u d
      omega
    have hnd : n < d.length := by omega
    refine ⟨n, hlt, ?_⟩
    rw [List.getD_eq_getElem d 0 hnd]
    rw [List.getElem_take] at he
    exact he
  · rintro ⟨k, hk, he⟩
    have hkd : k < d.length := by omega
    have hlen : k < (d.take u).length := by
      rw [List.length_take]; omega
    refine ⟨k, hlen, ?_⟩
    rw [List.getElem_take]
    rw [List.getD_eq_getElem d 0 hkd] at he
    exact he

theorem scan_none_iff_not_mem {d : List Int} {v : Int} {u : Nat} (hu : u ≤ d.length) :
    scan d v 0 u = none ↔ v ∉ d.take u := by
  rw [scan_eq_none, mem_take_iff hu]
  push_neg
  constructor
  · intro h k hk; exact h k (Nat.zero_le _) hk
  · intro h k _ hk; exact h k hk

theorem getD_set_eq {d : List Int} {i : Nat} {x : Int} (hi : i < d.length) (m : Nat) :
    (d.set i x).getD m 0 = if m = i then x else d.getD m 0 := by
  by_cases hm : m < d.length
  · rw [List.getD_eq_getElem _ _ (by simpa using hm), List.getElem_set]
    by_cases he : i = m
    · subst he; simp
    · rw [if_neg he, if_neg (Ne.symm he), List.getD_eq_getElem _ _ hm]
  · rw [List.getD_eq_default _ _ (by simpa using Nat.le_of_not_lt hm),
      List.getD_eq_default _ _ (Nat.le_of_not_lt hm), if_neg (by omega)]

theorem shiftL_length : ∀ (d : List Int) (i u : Nat), (shiftL d i u).length = d.length := by
  intro d i u
  induction d, i, u using shiftL.induct with
  | case1 d i u h ih => rw [shiftL, if_pos h]; rw [ih, List.length_set]
  | case2 d i u h => rw [shiftL, if_neg h]

theorem shiftL_getD :
    ∀ (d : List Int) (i u : Nat), u ≤ d.length → ∀ k,
      (shiftL d i u).getD k 0 =
        if i ≤ k ∧ k + 2 ≤ u then d.getD (k + 1) 0 else d.getD k 0 := by
  intro d i u
  induction d, i, u using shiftL.induct with
  | case1 d i u h ih =>
    intro hu k
    rw [shiftL, if_pos h]
    have hid : i < d.length := by omega
    have hu' : u ≤ (d.set i (d.getD (i + 1) 0)).length := by
      rw [List.length_set]; exact hu
    rw [ih hu' k]
    by_cases hk1 : i + 1 ≤ k ∧ k + 2 ≤ u
    · rw [if_pos hk1, if_pos (by omega), getD_set_eq hid, if_neg (by omega)]
    · rw [if_neg hk1, getD_set_eq hid]
      by_cases hk2 : k = i
      · subst hk2
        rw [if_pos rfl, if_pos (by omega)]
      · rw [if_neg hk2, if_neg (by omega)]
  | case2 d i u h =>
    intro hu k
    rw [shiftL, if_neg h, if_neg (by omega)]
theorem getD_take_lt {d : List Int} {u k : Nat} (hk : k < u) :
    (d.take u).getD k 0 = d.getD k 0 := by
  by_cases hkd : k < d.length
  · have h1 : k < (d.take u).length := by rw [List.length_take]; omega
    rw [List.getD_eq_getElem _ 0 h1, List.getD_eq_getElem _ 0 hkd, List.getElem_take]
  · rw [List.getD_eq_default _ 0 (by rw [List.length_take]; omega),
      List.getD_eq_default _ 0 (by omega)]

theorem getD_drop_add {d : List Int} {n k : Nat} :
    (d.drop n).getD k 0 = d.getD (n + k) 0 := by
  by_cases hkd : n + k < d.length
  · have h1 : k < (d.drop n).length := by rw [List.length_drop]; omega
    rw [List.getD_eq_getElem _ 0 h1, List.getD_eq_getElem _ 0 hkd, List.getElem_drop]
  · rw [List.getD_eq_default _ 0 (by rw [List.length_drop]; omega),
      List.getD_eq_default _ 0 (by omega)]

theorem ext_getD {l₁ l₂ : List Int} (hlen : l₁.length = l₂.length)
    (h : ∀ k, k < l₁.length → l₁.getD k 0 = l₂.getD k 0) : l₁ = l₂ :=
  List.ext_getElem hlen fun n h1 h2 => by
    rw [← List.getD_eq_getElem _ 0 h1, ← List.getD_eq_getElem _ 0 h2]; exact h n h1

theorem erase_take {d : List Int} {u i : Nat} {v : Int} (hu : u ≤ d.length) (hi : i < u)
    (hv : d.getD i 0 = v) (hmin : ∀ k, k < i → d.getD k 0 ≠ v) :
    (d.take u).erase v = d.take i ++ (d.drop (i + 1)).take (u - 1 - i) := by
  have hid : i < d.length := by omega
  have h1 : d.take u = d.take i ++ v :: (d.drop (i + 1)).take (u - 1 - i) := by
    conv_lhs => rw [← List.take_append_drop (i + 1) (d.take u)]
    rw [List.take_take, Nat.min_eq_left (by omega), List.drop_take,
      List.take_succ, List.getElem?_eq_getElem hid,
      ← List.getD_eq_getElem d 0 hid, hv]
    have he : u - (i + 1) = u - 1 - i := by omega
    rw [he]
    simp
  rw [h1]
  have hnmem : v ∉ d.take i := by
    rw [mem_take_iff (by omega)]
    rintro ⟨k, hk, he⟩
    exact hmin k hk he
  rw [List.erase_append_right _ hnmem, List.erase_cons_head]

theorem shiftL_take_eq {d : List Int} {u i : Nat} (hu : u ≤ d.length) (h2 : i + 2 ≤ u) :
    (shiftL d i u).take (u - 1) = d.take i ++ (d.drop (i + 1)).take (u - 1 - i) := by
  have hlen1 : (d.take i).length = i := by rw [List.length_take]; omega
  apply ext_getD
  · rw [List.length_take, shiftL_length, List.length_append, hlen1,
      List.length_take, List.length_drop]
    omega
  · intro k hk
    rw [List.length_take, shiftL_length] at hk
    have hku : k < u - 1 := by omega
    rw [getD_take_lt hku, shiftL_getD d i u hu k]
    by_cases hki : k < i
    · rw [if_neg (by omega), List.getD_append _ _ _ _ (by omega), getD_take_lt (by omega)]
    · rw [if_pos (by omega), List.getD_append_right _ _ _ _ (by omega), hlen1,
        getD_take_lt (by omega), getD_drop_add]
      have he : i + 1 + (k - i) = k + 1 := by omega
      rw [he]

theorem shiftL_drop_eq {d : List Int} {u i : Nat} (hu : u ≤ d.length) :
    (shiftL d i u).drop u = d.drop u := by
  apply ext_getD
  · rw [List.length_drop, shiftL_length, List.length_drop]
  · intro k hk
    rw [getD_drop_add, getD_drop_add, shiftL_getD d i u hu _, if_neg (by omega)]
theorem CSet_Remove_of_none {s : CSet} {v : Int}
    (h : scan s.Data v 0 s.Usage = none) : CSet_Remove s v = (false, s) := by
  rw [CSet_Remove]
  split
  · rfl
  · next i heq => rw [h] at heq; exact absurd heq (by simp)

theorem CSet_Remove_of_last {s : CSet} {v : Int} {i : Nat}
    (h : scan s.Data v 0 s.Usage = some i) (hl : i = s.Usage - 1) :
    CSet_Remove s v = (true, ⟨s.Capacity, s.Usage - 1, s.Data.set i sentinel⟩) := by
  rw [CSet_Remove]
  split
  · next heq => rw [h] at heq; exact absurd heq (by simp)
  · next j heq =>
    rw [h] at heq
    simp only [Option.some.injEq] at heq
    subst heq
    rw [if_pos hl, hl]

theorem CSet_Remove_of_shift {s : CSet} {v : Int} {i : Nat}
    (h : scan s.Data v 0 s.Usage = some i) (hl : ¬ i = s.Usage - 1) :
    CSet_Remove s v =
      (true,
        ⟨((CSet_Remove ⟨s.Capacity, s.Usage - 1, shiftL s.Data i s.Usage⟩ v).2).Capacity,
         ((CSet_Remove ⟨s.Capacity, s.Usage - 1, shiftL s.Data i s.Usage⟩ v).2).Usage,
         ((CSet_Remove ⟨s.Capacity, s.Usage - 1, shiftL s.Data i s.Usage⟩ v).2).Data.set
           ((CSet_Remove ⟨s.Capacity, s.Usage - 1, shiftL s.Data i s.Usage⟩ v).2).Usage
           sentinel⟩) := by
  rw [CSet_Remove]
  split
  · next heq => rw [h] at heq; exact absurd heq (by simp)
  · next j heq =>
    rw [h] at heq
    simp only [Option.some.injEq] at heq
    subst heq
    rw [if_neg hl]

theorem scan_shifted_none {s : CSet} {v : Int} {i : Nat} (hp : Proper s)
    (h : scan s.Data v 0 s.Usage = some i) (hl : ¬ i = s.Usage - 1) :
    scan (shiftL s.Data i s.Usage) v 0 (s.Usage - 1) = none := by
  obtain ⟨hlen, hcap, hsort, htail⟩ := hp
  obtain ⟨-, hi, hv, hmin⟩ := scan_eq_some h
  have hu : s.Usage ≤ s.Data.length := by omega
  have h2 : i + 2 ≤ s.Usage := by omega
  rw [scan_none_iff_not_mem (by rw [shiftL_length]; omega)]
  rw [shiftL_take_eq hu h2, ← erase_take hu hi hv fun k hk => hmin k (by omega) hk]
  intro hmem
  have hnd : (s.Data.take s.Usage).Nodup := hsort.nodup
  rw [hnd.mem_erase_iff] at hmem
  exact hmem.1 rfl

theorem remove_found_state {s : CSet} {v : Int} (hp : Proper s) (hmem : v ∈ elems s) :
    CSet_Remove s v =
      (true, ⟨s.Capacity, s.Usage - 1,
        (elems s).erase v ++ sentinel :: s.Data.drop s.Usage⟩) := by
  obtain ⟨hlen, hcap, hsort, htail⟩ := hp
  have hu : s.Usage ≤ s.Data.length := by omega
  cases hscan : scan s.Data v 0 s.Usage with
  | none =>
    rw [scan_none_iff_not_mem hu] at hscan
    exact absurd hmem hscan
  | some i =>
    obtain ⟨-, hi, hv, hmin⟩ := scan_eq_some hscan
    have hu1 : s.Usage - 1 < s.Data.length := by omega
    have herase := erase_take hu hi hv fun k hk => hmin k (by omega) hk
    by_cases hl : i = s.Usage - 1
    · rw [CSet_Remove_of_last hscan hl]
      have hde : s.Data.set i sentinel =
          (elems s).erase v ++ sentinel :: s.Data.drop s.Usage := by
        subst hl
        have hz : s.Usage - 1 - (s.Usage - 1) = 0 := by omega
        rw [elems, herase, hz, List.take_zero, List.append_nil,
          List.set_eq_take_cons_drop sentinel hu1]
        have hdr : s.Usage - 1 + 1 = s.Usage := by omega
        rw [hdr]
      rw [hde]
    · have h2 : i + 2 ≤ s.Usage := by omega
      rw [CSet_Remove_of_shift hscan hl,
        CSet_Remove_of_none (scan_shifted_none ⟨hlen, hcap, hsort, htail⟩ hscan hl)]
      have hde : (shiftL s.Data i s.Usage).set (s.Usage - 1) sentinel =
          (elems s).erase v ++ sentinel :: s.Data.drop s.Usage := by
        rw [List.set_eq_take_cons_drop sentinel (by rw [shiftL_length]; omega)]
        have hdr : s.Usage - 1 + 1 = s.Usage := by omega
        rw [hdr, shiftL_take_eq hu h2, shiftL_drop_eq hu, elems, herase]
      rw [hde]
theorem sorted_getD_lt {d : List Int} {u : Nat} (hsort : List.Pairwise (· < ·) (d.take u))
    (hu : u ≤ d.length) {a b : Nat} (hab : a < b) (hb : b < u) :
    d.getD a 0 < d.getD b 0 := by
  have ha' : a < d.length := by omega
  have hb' : b < d.length := by omega
  rw [List.getD_eq_getElem _ 0 ha', List.getD_eq_getElem _ 0 hb']
  have h := List.pairwise_iff_getElem.mp hsort a b
    (by rw [List.length_take]; omega) (by rw [List.length_take]; omega) hab
  rwa [List.getElem_take, List.getElem_take] at h

theorem bsearchAux_iff (d : List Int) (v : Int) (u : Nat) (hu : u ≤ d.length)
    (hsort : List.Pairwise (· < ·) (d.take u)) :
    ∀ lo hi : Int, 0 ≤ lo → hi < (u : Int) →
      (bsearchAux d v lo hi = true ↔
        ∃ k : Nat, lo ≤ (k : Int) ∧ (k : Int) ≤ hi ∧ k < u ∧ d.getD k 0 = v) := by
  intro lo hi
  induction lo, hi using bsearchAux.induct d v with
  | case1 lo hi h heq =>
    intro hlo hhi
    rw [bsearchAux, dif_pos h, if_pos heq]
    simp only [true_iff]
    have hm1 : lo ≤ (lo + hi) / 2 := by omega
    have hm2 : (lo + hi) / 2 ≤ hi := by omega
    refine ⟨((lo + hi) / 2).toNat, ?_, ?_, ?_, heq⟩
    · rw [Int.toNat_of_nonneg (by omega)]; exact hm1
    · rw [Int.toNat_of_nonneg (by omega)]; exact hm2
    · omega
  | case2 lo hi h hne hlt ih =>
    intro hlo hhi
    rw [bsearchAux, dif_pos h, if_neg hne, if_pos hlt]
    rw [ih hlo (by omega)]
    constructor
    · rintro ⟨k, h1, h2, h3, h4⟩
      exact ⟨k, h1, by omega, h3, h4⟩
    · rintro ⟨k, h1, h2, h3, h4⟩
      refine ⟨k, h1, ?_, h3, h4⟩
      by_contra hcon
      push_neg at hcon
      have hk : ((lo + hi) / 2).toNat ≤ k := by omega
      rcases Nat.eq_or_lt_of_le hk with he | hlt2
      · rw [he, h4] at hne
        exact hne rfl
      · have hs := sorted_getD_lt hsort hu hlt2 h3
        rw [h4] at hs
        omega
  | case3 lo hi h hne hnlt ih =>
    intro hlo hhi
    rw [bsearchAux, dif_pos h, if_neg hne, if_neg hnlt]
    have hmu : ((lo + hi) / 2).toNat < u := by omega
    rw [ih (by omega) hhi]
    constructor
    · rintro ⟨k, h1, h2, h3, h4⟩
      exact ⟨k, by omega, h2, h3, h4⟩
    · rintro ⟨k, h1, h2, h3, h4⟩
      refine ⟨k, ?_, h2, h3, h4⟩
      by_contra hcon
      push_neg at hcon
      have hk : k ≤ ((lo + hi) / 2).toNat := by omega
      rcases Nat.eq_or_lt_of_le hk with he | hlt2
      · rw [← he, h4] at hne
        exact hne rfl
      · have hs := sorted_getD_lt hsort hu hlt2 hmu
        rw [h4] at hs
        omega
  | case4 lo hi h =>
    intro hlo hhi
    rw [bsearchAux, dif_neg h]
    constructor
    · intro hh; exact absurd hh (by simp)
    · rintro ⟨k, h1, h2, -, -⟩
      exact absurd (le_trans h1 h2) h

theorem contains_iff_mem {s : CSet} {v : Int} (hp : Proper s) :
    CSet_Contains s v = true ↔ v ∈ elems s := by
  obtain ⟨hlen, hcap, hsort, htail⟩ := hp
  have hu : s.Usage ≤ s.Data.length := by omega
  rw [CSet_Contains]
  by_cases h0 : s.Usage = 0
  · rw [if_pos h0, elems, h0]
    simp
  · rw [if_neg h0]
    rw [bsearchAux_iff s.Data v s.Usage hu hsort 0 _ le_rfl (by omega)]
    rw [elems, mem_take_iff hu]
    constructor
    · rintro ⟨k, -, -, h3, h4⟩
      exact ⟨k, h3, h4⟩
    · rintro ⟨k, h3, h4⟩
      exact ⟨k, by omega, by omega, h3, h4⟩
/-- C6: for a proper set, `CSet_Contains` returns true iff the value occurs
among the stored elements `Data[0, Usage)`.  In this embedding the function
is read-only by construction (it takes the set by value and returns only a
`Bool`), and the empty-set case is the `Usage = 0` instance of the
equivalence. -/
theorem c6_contains_correct (s : CSet) (v : Int) (hp : Proper s) :
    CSet_Contains s v = true ↔ v ∈ elems s :=
  contains_iff_mem hp

/-- Witness for C6 at concrete inputs. -/
theorem c6_contains_correct_witness :
    (CSet_Contains ⟨4, 3, [1, 3, 5, sentinel]⟩ 3 = true ↔
      (3 : Int) ∈ elems ⟨4, 3, [1, 3, 5, sentinel]⟩) ∧
    (CSet_Contains ⟨0, 0, []⟩ 3 = true ↔ (3 : Int) ∈ elems ⟨0, 0, []⟩) :=
  ⟨c6_contains_correct ⟨4, 3, [1, 3, 5, sentinel]⟩ 3 (by decide),
   c6_contains_correct ⟨0, 0, []⟩ 3 (by decide)⟩

/-- C5: `CSet_Remove` is exact on proper sets.  Removing an absent value
returns false and leaves the set byte-for-byte unchanged; removing a
present value returns true, keeps `Capacity`, decrements `Usage` by one,
shifts the elements after the value left by one (the new `Data` is the old
element list with the value erased, the vacated trailing slot holding the
sentinel, and the old sentinel tail), leaves the set proper, and makes
`CSet_Contains` false for the value — the recursive second removal pass of
the source notwithstanding. -/
theorem c5_remove_exact (s : CSet) (v : Int) (hp : Proper s) :
    (v ∉ elems s → CSet_Remove s v = (false, s)) ∧
    (v ∈ elems s →
      (CSet_Remove s v).1 = true ∧
      (CSet_Remove s v).2.Capacity = s.Capacity ∧
      (CSet_Remove s v).2.Usage = s.Usage - 1 ∧
      (CSet_Remove s v).2.Data =
        (elems s).erase v ++ sentinel :: s.Data.drop s.Usage ∧
      Proper (CSet_Remove s v).2 ∧
      CSet_Contains (CSet_Remove s v).2 v = false) := by
  obtain ⟨hlen, hcap, hsort, htail⟩ := hp
  have hu : s.Usage ≤ s.Data.length := by omega
  constructor
  · intro hnm
    exact CSet_Remove_of_none ((scan_none_iff_not_mem hu).mpr hnm)
  · intro hmem
    rw [remove_found_state ⟨hlen, hcap, hsort, htail⟩ hmem]
    have hu1 : 1 ≤ s.Usage := by
      by_contra h0
      have h0' : s.Usage = 0 := by omega
      rw [elems, h0'] at hmem
      simp at hmem
    have hE : (elems s).length = s.Usage := by
      rw [elems, List.length_take]; omega
    have hEe : ((elems s).erase v).length = s.Usage - 1 := by
      rw [List.length_erase_of_mem hmem, hE]
    have he : elems (⟨s.Capacity, s.Usage - 1,
        (elems s).erase v ++ sentinel :: s.Data.drop s.Usage⟩ : CSet) =
        (elems s).erase v := by
      rw [elems]
      show ((elems s).erase v ++ sentinel :: s.Data.drop s.Usage).take (s.Usage - 1) =
        (elems s).erase v
      rw [← hEe, List.take_left]
    have hnm2 : v ∉ (elems s).erase v := by
      intro hmem2
      rw [(hsort.nodup).mem_erase_iff] at hmem2
      exact hmem2.1 rfl
    have hproper : Proper ⟨s.Capacity, s.Usage - 1,
        (elems s).erase v ++ sentinel :: s.Data.drop s.Usage⟩ := by
      refine ⟨?_, ?_, ?_, ?_⟩
      · show ((elems s).erase v ++ sentinel :: s.Data.drop s.Usage).length = s.Capacity
        rw [List.length_append, hEe, List.length_cons, List.length_drop]
        omega
      · show s.Usage - 1 ≤ s.Capacity
        omega
      · rw [he]
        exact List.Pairwise.sublist (List.erase_sublist v (elems s)) hsort
      · show ∀ x ∈ ((elems s).erase v ++
            sentinel :: s.Data.drop s.Usage).drop (s.Usage - 1), x = sentinel
        have hd : ((elems s).erase v ++
            sentinel :: s.Data.drop s.Usage).drop (s.Usage - 1) =
            sentinel :: s.Data.drop s.Usage := by
          rw [← hEe, List.drop_left]
        rw [hd]
        intro x hx
        rcases List.mem_cons.mp hx with rfl | hx2
        · rfl
        · exact htail x hx2
    refine ⟨rfl, rfl, rfl, rfl, hproper, ?_⟩
    have hnm3 : v ∉ elems (⟨s.Capacity, s.Usage - 1,
        (elems s).erase v ++ sentinel :: s.Data.drop s.Usage⟩ : CSet) := by
      rw [he]; exact hnm2
    cases hb : CSet_Contains (⟨s.Capacity, s.Usage - 1,
        (elems s).erase v ++ sentinel :: s.Data.drop s.Usage⟩ : CSet) v with
    | false => rfl
    | true => exact absurd ((contains_iff_mem hproper).mp hb) hnm3

/-- Witness for C5 at concrete inputs: removing the absent value 9 and the
present value 3 from the proper set `{1, 3, 5}`. -/
theorem c5_remove_exact_witness :
    CSet_Remove ⟨4, 3, [1, 3, 5, sentinel]⟩ 9 = (false, ⟨4, 3, [1, 3, 5, sentinel]⟩) ∧
    (CSet_Remove ⟨4, 3, [1, 3, 5, sentinel]⟩ 3).1 = true ∧
    (CSet_Remove ⟨4, 3, [1, 3, 5, sentinel]⟩ 3).2.Usage = 3 - 1 ∧
    Proper (CSet_Remove ⟨4, 3, [1, 3, 5, sentinel]⟩ 3).2 ∧
    CSet_Contains (CSet_Remove ⟨4, 3, [1, 3, 5, sentinel]⟩ 3).2 3 = false :=
  ⟨(c5_remove_exact ⟨4, 3, [1, 3, 5, sentinel]⟩ 9 (by decide)).1 (by decide),
   ((c5_remove_exact ⟨4, 3, [1, 3, 5, sentinel]⟩ 3 (by decide)).2 (by decide)).1,
   ((c5_remove_exact ⟨4, 3, [1, 3, 5, sentinel]⟩ 3 (by decide)).2 (by decide)).2.2.1,
   ((c5_remove_exact ⟨4, 3, [1, 3, 5, sentinel]⟩ 3 (by decide)).2 (by decide)).2.2.2.2.1,
   ((c5_remove_exact ⟨4, 3, [1, 3, 5, sentinel]⟩ 3 (by decide)).2 (by decide)).2.2.2.2.2⟩

/-- C10: `CSet_Remove` terminates with at most one recursive
self-invocation on every proper set (in this embedding the function is
total by well-founded recursion on `Usage`; the content of the claim is
the behaviour of the recursive call).  Whenever the search finds the value
at an index other than `Usage - 1` — the only case that recurses — the
shifted, decremented set passed to the recursive call no longer contains
the value, so that call takes the not-found path: it returns false and
leaves its argument untouched, performing no further recursion or
mutation. -/
theorem c10_remove_single_recursion (s : CSet) (v : Int) (i : Nat) (hp : Proper s)
    (hscan : scan s.Data v 0 s.Usage = some i) (hl : ¬ i = s.Usage - 1) :
    scan (shiftL s.Data i s.Usage) v 0 (s.Usage - 1) = none ∧
    CSet_Remove ⟨s.Capacity, s.Usage - 1, shiftL s.Data i s.Usage⟩ v =
      (false, ⟨s.Capacity, s.Usage - 1, shiftL s.Data i s.Usage⟩) := by
  have h1 := scan_shifted_none hp hscan hl
  exact ⟨h1, CSet_Remove_of_none h1⟩

/-- Witness for C10: removing 1 from `{1, 5}` finds it at index 0, not the
last occupied slot, so the shift-and-recurse branch runs. -/
theorem c10_remove_single_recursion_witness :
    scan (shiftL [1, 5, sentinel] 0 2) 1 0 (2 - 1) = none ∧
    CSet_Remove ⟨3, 2 - 1, shiftL [1, 5, sentinel] 0 2⟩ 1 =
      (false, ⟨3, 2 - 1, shiftL [1, 5, sentinel] 0 2⟩) :=
  c10_remove_single_recursion ⟨3, 2, [1, 5, sentinel]⟩ 1 0 (by decide)
    (by simp [scan]) (by decide)
theorem interMerge_eq_filter :
    ∀ (xs ys : List Int), List.Pairwise (· < ·) xs → List.Pairwise (· < ·) ys →
      interMerge xs ys = xs.filter fun x => decide (x ∈ ys) := by
  intro xs ys
  induction xs, ys using interMerge.induct with
  | case1 x xs y ys hlt ih =>
    intro hx hy
    rw [interMerge, if_pos hlt]
    have hnot : ¬ x ∈ y :: ys := by
      intro hmem
      rcases List.mem_cons.mp hmem with rfl | h2
      · omega
      · have := List.rel_of_pairwise_cons hy h2
        omega
    rw [List.filter_cons_of_neg (by simpa using hnot)]
    exact ih (List.pairwise_cons.mp hx).2 hy
  | case2 x xs y ys hnlt hlt ih =>
    intro hx hy
    rw [interMerge, if_neg hnlt, if_pos hlt]
    rw [ih hx (List.pairwise_cons.mp hy).2]
    apply List.filter_congr
    intro z hz
    have hzx : x ≤ z := by
      rcases List.mem_cons.mp hz with rfl | h2
      · omega
      · have := List.rel_of_pairwise_cons hx h2
        omega
    have hzy : z ≠ y := by omega
    simp [List.mem_cons, hzy]
  | case3 x xs y ys hnlt hnlt2 ih =>
    intro hx hy
    have hxy : x = y := by omega
    rw [interMerge, if_neg hnlt, if_neg hnlt2]
    rw [List.filter_cons_of_pos (by simp [hxy])]
    rw [ih (List.pairwise_cons.mp hx).2 (List.pairwise_cons.mp hy).2]
    congr 1
    apply List.filter_congr
    intro z hz
    have hzx : x < z := List.rel_of_pairwise_cons hx hz
    have hzy : z ≠ y := by omega
    simp [List.mem_cons, hzy]
  | case4 xs => intro _ _; simp [interMerge]
  | case5 ys h =>
    intro _ _
    rw [interMerge]
    · simp
    · exact h
/-- C7: `CSet_Intersection` is correct on proper inputs (allocation
succeeding): it returns true and leaves the output proper, with membership
the conjunction of the inputs' memberships, `Usage` the number of common
elements, `Capacity` the minimum of the input capacities — and, since the
new buffer is fully built from `a` and `b` before the output's old buffer
is replaced, the resulting set is the same value whatever the previous
output set was, which is exactly why the aliased calls
`intersection(a, a, b)` and `intersection(b, a, b)` agree with a call
using a separate output set. -/
theorem c7_intersection_correct (out a b : CSet) (ha : Proper a) (hb : Proper b) :
    (CSet_Intersection true out a b).1 = true ∧
    (CSet_Intersection true out a b).2.Capacity = min a.Capacity b.Capacity ∧
    (CSet_Intersection true out a b).2.Usage =
      ((elems a).filter fun x => decide (x ∈ elems b)).length ∧
    Proper (CSet_Intersection true out a b).2 ∧
    (∀ x : Int, x ∈ elems (CSet_Intersection true out a b).2 ↔
      x ∈ elems a ∧ x ∈ elems b) ∧
    ∀ out' : CSet,
      (CSet_Intersection true out a b).2 = (CSet_Intersection true out' a b).2 := by
  obtain ⟨hla, hca, hsa, hta⟩ := ha
  obtain ⟨hlb, hcb, hsb, htb⟩ := hb
  have hfil := interMerge_eq_filter (elems a) (elems b) hsa hsb
  have hEa : (elems a).length = a.Usage := by
    rw [elems, List.length_take]; omega
  have hEb : (elems b).length = b.Usage := by
    rw [elems, List.length_take]; omega
  have hsub : interMerge (elems a) (elems b) ⊆ elems b := by
    intro z hz
    rw [hfil] at hz
    have := List.mem_filter.mp hz
    simpa using this.2
  have hnd : (interMerge (elems a) (elems b)).Nodup := by
    rw [hfil]
    exact hsa.nodup.filter _
  have hlen1 : (interMerge (elems a) (elems b)).length ≤ a.Capacity := by
    rw [hfil]
    calc ((elems a).filter fun x => decide (x ∈ elems b)).length
        ≤ (elems a).length := List.length_filter_le _ _
      _ = a.Usage := hEa
      _ ≤ a.Capacity := hca
  have hlen2 : (interMerge (elems a) (elems b)).length ≤ b.Capacity := by
    calc (interMerge (elems a) (elems b)).length
        ≤ (elems b).length := (hnd.subperm hsub).length_le
      _ = b.Usage := hEb
      _ ≤ b.Capacity := hcb
  have hres : CSet_Intersection true out a b =
      (true, ⟨if a.Capacity > b.Capacity then b.Capacity else a.Capacity,
        (interMerge (elems a) (elems b)).length,
        interMerge (elems a) (elems b) ++
          List.replicate ((if a.Capacity > b.Capacity then b.Capacity else a.Capacity) -
            (interMerge (elems a) (elems b)).length) sentinel⟩) := rfl
  have hcap : (if a.Capacity > b.Capacity then b.Capacity else a.Capacity) =
      min a.Capacity b.Capacity := by
    split <;> omega
  have hle : (interMerge (elems a) (elems b)).length ≤
      (if a.Capacity > b.Capacity then b.Capacity else a.Capacity) := by
    split <;> assumption
  have helems : elems (CSet_Intersection true out a b).2 =
      interMerge (elems a) (elems b) := by
    rw [hres, elems]
    exact List.take_left _ _
  have helems2 : elems (⟨if a.Capacity > b.Capacity then b.Capacity else a.Capacity,
      (interMerge (elems a) (elems b)).length,
      interMerge (elems a) (elems b) ++
        List.replicate ((if a.Capacity > b.Capacity then b.Capacity else a.Capacity) -
          (interMerge (elems a) (elems b)).length) sentinel⟩ : CSet) =
      interMerge (elems a) (elems b) := by
    rw [elems]
    exact List.take_left _ _
  have hprop : Proper ⟨if a.Capacity > b.Capacity then b.Capacity else a.Capacity,
      (interMerge (elems a) (elems b)).length,
      interMerge (elems a) (elems b) ++
        List.replicate ((if a.Capacity > b.Capacity then b.Capacity else a.Capacity) -
          (interMerge (elems a) (elems b)).length) sentinel⟩ := by
    refine ⟨?_, ?_, ?_, ?_⟩
    · show (interMerge (elems a) (elems b) ++
          List.replicate ((if a.Capacity > b.Capacity then b.Capacity else a.Capacity) -
            (interMerge (elems a) (elems b)).length) sentinel).length =
        (if a.Capacity > b.Capacity then b.Capacity else a.Capacity)
      rw [List.length_append, List.length_replicate]
      omega
    · show (interMerge (elems a) (elems b)).length ≤
        (if a.Capacity > b.Capacity then b.Capacity else a.Capacity)
      exact hle
    · rw [helems2, hfil]
      exact hsa.filter _
    · show ∀ x ∈ (interMerge (elems a) (elems b) ++
          List.replicate ((if a.Capacity > b.Capacity then b.Capacity else a.Capacity) -
            (interMerge (elems a) (elems b)).length)
            sentinel).drop (interMerge (elems a) (elems b)).length,
        x = sentinel
      rw [List.drop_left]
      intro x hx
      exact (List.mem_replicate.mp hx).2
  refine ⟨by rw [hres], ?_, ?_, ?_, ?_, fun out' => rfl⟩
  · rw [hres]
    exact hcap
  · rw [hres]
    exact congrArg List.length hfil
  · rw [hres]
    exact hprop
  · intro x
    rw [helems, hfil]
    simp [List.mem_filter]

/-- Witness for C7, with the output aliasing the first input:
`intersection(a, a, b)` for `a = {1,3,5,7}`, `b = {3,4,5,9}`. -/
theorem c7_intersection_correct_witness :
    (CSet_Intersection true ⟨4, 4, [1, 3, 5, 7]⟩ ⟨4, 4, [1, 3, 5, 7]⟩
      ⟨4, 4, [3, 4, 5, 9]⟩).1 = true ∧
    (CSet_Intersection true ⟨4, 4, [1, 3, 5, 7]⟩ ⟨4, 4, [1, 3, 5, 7]⟩
      ⟨4, 4, [3, 4, 5, 9]⟩).2.Capacity = min 4 4 ∧
    ((3 : Int) ∈ elems (CSet_Intersection true ⟨4, 4, [1, 3, 5, 7]⟩
        ⟨4, 4, [1, 3, 5, 7]⟩ ⟨4, 4, [3, 4, 5, 9]⟩).2 ↔
      (3 : Int) ∈ elems ⟨4, 4, [1, 3, 5, 7]⟩ ∧
        (3 : Int) ∈ elems ⟨4, 4, [3, 4, 5, 9]⟩) ∧
    (CSet_Intersection true ⟨4, 4, [1, 3, 5, 7]⟩ ⟨4, 4, [1, 3, 5, 7]⟩
      ⟨4, 4, [3, 4, 5, 9]⟩).2 =
    (CSet_Intersection true ⟨2, 0, [sentinel, sentinel]⟩ ⟨4, 4, [1, 3, 5, 7]⟩
      ⟨4, 4, [3, 4, 5, 9]⟩).2 :=
  ⟨(c7_intersection_correct ⟨4, 4, [1, 3, 5, 7]⟩ ⟨4, 4, [1, 3, 5, 7]⟩
      ⟨4, 4, [3, 4, 5, 9]⟩ (by decide) (by decide)).1,
   (c7_intersection_correct ⟨4, 4, [1, 3, 5, 7]⟩ ⟨4, 4, [1, 3, 5, 7]⟩
      ⟨4, 4, [3, 4, 5, 9]⟩ (by decide) (by decide)).2.1,
   (c7_intersection_correct ⟨4, 4, [1, 3, 5, 7]⟩ ⟨4, 4, [1, 3, 5, 7]⟩
      ⟨4, 4, [3, 4, 5, 9]⟩ (by decide) (by decide)).2.2.2.2.1 3,
   (c7_intersection_correct ⟨4, 4, [1, 3, 5, 7]⟩ ⟨4, 4, [1, 3, 5, 7]⟩
      ⟨4, 4, [3, 4, 5, 9]⟩ (by decide) (by decide)).2.2.2.2.2
      ⟨2, 0, [sentinel, sentinel]⟩⟩
theorem symMerge_subset :
    ∀ (xs ys : List Int) (z : Int), z ∈ symMerge xs ys → z ∈ xs ∨ z ∈ ys := by
  intro xs ys
  induction xs, ys using symMerge.induct with
  | case1 xs x ys ih =>
    intro z hz
    rw [symMerge, if_pos rfl] at hz
    rcases ih z hz with h | h
    · exact Or.inl (List.mem_cons_of_mem x h)
    · exact Or.inr (List.mem_cons_of_mem x h)
  | case2 x xs y ys hne hlt ih =>
    intro z hz
    rw [symMerge, if_neg hne, if_pos hlt] at hz
    rcases List.mem_cons.mp hz with rfl | hz2
    · exact Or.inl (List.mem_cons_self _ _)
    · rcases ih z hz2 with h | h
      · exact Or.inl (List.mem_cons_of_mem x h)
      · exact Or.inr h
  | case3 x xs y ys hne hnlt ih =>
    intro z hz
    rw [symMerge, if_neg hne, if_neg hnlt] at hz
    rcases List.mem_cons.mp hz with rfl | hz2
    · exact Or.inr (List.mem_cons_self _ _)
    · rcases ih z hz2 with h | h
      · exact Or.inl h
      · exact Or.inr (List.mem_cons_of_mem y h)
  | case4 xs =>
    intro z hz
    simp only [symMerge] at hz
    exact Or.inl hz
  | case5 ys h =>
    intro z hz
    rw [symMerge] at hz
    · exact Or.inr hz
    · exact h

theorem symMerge_sorted :
    ∀ (xs ys : List Int), List.Pairwise (· < ·) xs → List.Pairwise (· < ·) ys →
      List.Pairwise (· < ·) (symMerge xs ys) := by
  intro xs ys
  induction xs, ys using symMerge.induct with
  | case1 xs x ys ih =>
    intro hx hy
    rw [symMerge, if_pos rfl]
    exact ih (List.pairwise_cons.mp hx).2 (List.pairwise_cons.mp hy).2
  | case2 x xs y ys hne hlt ih =>
    intro hx hy
    rw [symMerge, if_neg hne, if_pos hlt, List.pairwise_cons]
    refine ⟨?_, ih (List.pairwise_cons.mp hx).2 hy⟩
    intro z hz
    rcases symMerge_subset _ _ z hz with h | h
    · exact List.rel_of_pairwise_cons hx h
    · rcases List.mem_cons.mp h with rfl | h2
      · exact hlt
      · exact lt_trans hlt (List.rel_of_pairwise_cons hy h2)
  | case3 x xs y ys hne hnlt ih =>
    intro hx hy
    rw [symMerge, if_neg hne, if_neg hnlt, List.pairwise_cons]
    have hyx : y < x := by omega
    refine ⟨?_, ih hx (List.pairwise_cons.mp hy).2⟩
    intro z hz
    rcases symMerge_subset _ _ z hz with h | h
    · rcases List.mem_cons.mp h with rfl | h2
      · exact hyx
      · exact lt_trans hyx (List.rel_of_pairwise_cons hx h2)
    · exact List.rel_of_pairwise_cons hy h
  | case4 xs =>
    intro hx _
    simpa only [symMerge] using hx
  | case5 ys h =>
    intro _ hy
    rw [symMerge]
    · exact hy
    · exact h

theorem symMerge_mem :
    ∀ (xs ys : List Int), List.Pairwise (· < ·) xs → List.Pairwise (· < ·) ys →
      ∀ z : Int, z ∈ symMerge xs ys ↔ (z ∈ xs ∧ z ∉ ys) ∨ (z ∈ ys ∧ z ∉ xs) := by
  intro xs ys
  induction xs, ys using symMerge.induct with
  | case1 xs x ys ih =>
    intro hx hy z
    rw [symMerge, if_pos rfl,
      ih (List.pairwise_cons.mp hx).2 (List.pairwise_cons.mp hy).2 z]
    have hxxs : x ∉ xs := fun h => absurd (List.rel_of_pairwise_cons hx h) (lt_irrefl x)
    have hxys : x ∉ ys := fun h => absurd (List.rel_of_pairwise_cons hy h) (lt_irrefl x)
    by_cases hz : z = x
    · subst hz
      simp [hxxs, hxys]
    · simp [List.mem_cons, hz]
  | case2 x xs y ys hne hlt ih =>
    intro hx hy z
    rw [symMerge, if_neg hne, if_pos hlt, List.mem_cons,
      ih (List.pairwise_cons.mp hx).2 hy z]
    have hxys : x ∉ y :: ys := by
      intro h
      rcases List.mem_cons.mp h with rfl | h2
      · exact hne rfl
      · have := List.rel_of_pairwise_cons hy h2
        omega
    by_cases hz : z = x
    · subst hz
      have hzxs : z ∉ xs := fun h => absurd (List.rel_of_pairwise_cons hx h) (lt_irrefl _)
      simp [hzxs, hxys]
    · simp [List.mem_cons, hz]
  | case3 x xs y ys hne hnlt ih =>
    intro hx hy z
    rw [symMerge, if_neg hne, if_neg hnlt, List.mem_cons,
      ih hx (List.pairwise_cons.mp hy).2 z]
    have hyx : y < x := by omega
    have hyxs : y ∉ x :: xs := by
      intro h
      rcases List.mem_cons.mp h with rfl | h2
      · omega
      · have := List.rel_of_pairwise_cons hx h2
        omega
    by_cases hz : z = y
    · subst hz
      have hzys : z ∉ ys := fun h => absurd (List.rel_of_pairwise_cons hy h) (lt_irrefl _)
      simp [hzys, hyxs]
    · simp [List.mem_cons, hz]
  | case4 xs =>
    intro _ _ z
    simp [symMerge]
  | case5 ys h =>
    intro _ _ z
    rw [symMerge]
    · simp
    · exact h

theorem symMerge_length :
    ∀ (xs ys : List Int), List.Pairwise (· < ·) xs → List.Pairwise (· < ·) ys →
      (symMerge xs ys).length =
        (xs.filter fun t => decide (t ∉ ys)).length +
        (ys.filter fun t => decide (t ∉ xs)).length := by
  intro xs ys
  induction xs, ys using symMerge.induct with
  | case1 xs x ys ih =>
    intro hx hy
    rw [symMerge, if_pos rfl,
      ih (List.pairwise_cons.mp hx).2 (List.pairwise_cons.mp hy).2]
    have h1 : (x :: xs).filter (fun t => decide (t ∉ x :: ys)) =
        xs.filter fun t => decide (t ∉ ys) := by
      rw [List.filter_cons_of_neg (by simp)]
      apply List.filter_congr
      intro z hz
      have hzx : z ≠ x := by
        have := List.rel_of_pairwise_cons hx hz
        omega
      simp [List.mem_cons, hzx]
    have h2 : (x :: ys).filter (fun t => decide (t ∉ x :: xs)) =
        ys.filter fun t => decide (t ∉ xs) := by
      rw [List.filter_cons_of_neg (by simp)]
      apply List.filter_congr
      intro z hz
      have hzx : z ≠ x := by
        have := List.rel_of_pairwise_cons hy hz
        omega
      simp [List.mem_cons, hzx]
    rw [h1, h2]
  | case2 x xs y ys hne hlt ih =>
    intro hx hy
    rw [symMerge, if_neg hne, if_pos hlt, List.length_cons,
      ih (List.pairwise_cons.mp hx).2 hy]
    have hxys : x ∉ y :: ys := by
      intro h
      rcases List.mem_cons.mp h with rfl | h2
      · exact hne rfl
      · have := List.rel_of_pairwise_cons hy h2
        omega
    have h1 : (x :: xs).filter (fun t => decide (t ∉ y :: ys)) =
        x :: (xs.filter fun t => decide (t ∉ y :: ys)) :=
      List.filter_cons_of_pos (by simpa using hxys)
    have h2 : (y :: ys).filter (fun t => decide (t ∉ x :: xs)) =
        (y :: ys).filter fun t => decide (t ∉ xs) := by
      apply List.filter_congr
      intro z hz
      have hzx : z ≠ x := by
        rcases List.mem_cons.mp hz with rfl | h2
        · omega
        · have := List.rel_of_pairwise_cons hy h2
          omega
      simp [List.mem_cons, hzx]
    rw [h1, h2, List.length_cons]
    omega
  | case3 x xs y ys hne hnlt ih =>
    intro hx hy
    rw [symMerge, if_neg hne, if_neg hnlt, List.length_cons,
      ih hx (List.pairwise_cons.mp hy).2]
    have hyx : y < x := by omega
    have hyxs : y ∉ x :: xs := by
      intro h
      rcases List.mem_cons.mp h with rfl | h2
      · omega
      · have := List.rel_of_pairwise_cons hx h2
        omega
    have h1 : (y :: ys).filter (fun t => decide (t ∉ x :: xs)) =
        y :: (ys.filter fun t => decide (t ∉ x :: xs)) :=
      List.filter_cons_of_pos (by simpa using hyxs)
    have h2 : (x :: xs).filter (fun t => decide (t ∉ y :: ys)) =
        (x :: xs).filter fun t => decide (t ∉ ys) := by
      apply List.filter_congr
      intro z hz
      have hzy : z ≠ y := by
        rcases List.mem_cons.mp hz with rfl | h2
        · omega
        · have := List.rel_of_pairwise_cons hx h2
          omega
      simp [List.mem_cons, hzy]
    rw [h1, h2, List.length_cons]
    omega
  | case4 xs =>
    intro _ _
    simp [symMerge]
  | case5 ys h =>
    intro _ _
    rw [symMerge]
    · simp
    · exact h
/-- C8: `CSet_SymDifference` is correct on proper inputs (allocation
succeeding): it returns true and leaves the output proper with membership
the exclusive disjunction of the inputs' memberships, `Usage` the number
of values in exactly one input, `Capacity` the sum of the input
capacities, the tail sentinel-filled; and on `a = {1,2,3}`, `b = {2,3,4}`
the computed element sequence is exactly `[1, 4]`. -/
theorem c8_symdifference_correct (out a b : CSet) (ha : Proper a) (hb : Proper b) :
    (CSet_SymDifference true out a b).1 = true ∧
    (CSet_SymDifference true out a b).2.Capacity = a.Capacity + b.Capacity ∧
    (CSet_SymDifference true out a b).2.Usage =
      ((elems a).filter fun t => decide (t ∉ elems b)).length +
      ((elems b).filter fun t => decide (t ∉ elems a)).length ∧
    Proper (CSet_SymDifference true out a b).2 ∧
    (∀ x : Int, x ∈ elems (CSet_SymDifference true out a b).2 ↔
      ((x ∈ elems a ∧ x ∉ elems b) ∨ (x ∈ elems b ∧ x ∉ elems a))) ∧
    elems (CSet_SymDifference true ⟨0, 0, []⟩ ⟨3, 3, [1, 2, 3]⟩
      ⟨3, 3, [2, 3, 4]⟩).2 = [1, 4] := by
  obtain ⟨hla, hca, hsa, hta⟩ := ha
  obtain ⟨hlb, hcb, hsb, htb⟩ := hb
  have hEa : (elems a).length = a.Usage := by
    rw [elems, List.length_take]; omega
  have hEb : (elems b).length = b.Usage := by
    rw [elems, List.length_take]; omega
  have hlen := symMerge_length (elems a) (elems b) hsa hsb
  have hle : (symMerge (elems a) (elems b)).length ≤ a.Capacity + b.Capacity := by
    rw [hlen]
    have h1 := List.length_filter_le (fun t => decide (t ∉ elems b)) (elems a)
    have h2 := List.length_filter_le (fun t => decide (t ∉ elems a)) (elems b)
    omega
  have hres : CSet_SymDifference true out a b =
      (true, ⟨a.Capacity + b.Capacity,
        (symMerge (elems a) (elems b)).length,
        symMerge (elems a) (elems b) ++
          List.replicate ((a.Capacity + b.Capacity) -
            (symMerge (elems a) (elems b)).length) sentinel⟩) := rfl
  have helems2 : elems (⟨a.Capacity + b.Capacity,
      (symMerge (elems a) (elems b)).length,
      symMerge (elems a) (elems b) ++
        List.replicate ((a.Capacity + b.Capacity) -
          (symMerge (elems a) (elems b)).length) sentinel⟩ : CSet) =
      symMerge (elems a) (elems b) := by
    rw [elems]
    exact List.take_left _ _
  have hprop : Proper ⟨a.Capacity + b.Capacity,
      (symMerge (elems a) (elems b)).length,
      symMerge (elems a) (elems b) ++
        List.replicate ((a.Capacity + b.Capacity) -
          (symMerge (elems a) (elems b)).length) sentinel⟩ := by
    refine ⟨?_, ?_, ?_, ?_⟩
    · show (symMerge (elems a) (elems b) ++
          List.replicate ((a.Capacity + b.Capacity) -
            (symMerge (elems a) (elems b)).length) sentinel).length =
        a.Capacity + b.Capacity
      rw [List.length_append, List.length_replicate]
      omega
    · show (symMerge (elems a) (elems b)).length ≤ a.Capacity + b.Capacity
      exact hle
    · rw [helems2]
      exact symMerge_sorted (elems a) (elems b) hsa hsb
    · show ∀ x ∈ (symMerge (elems a) (elems b) ++
          List.replicate ((a.Capacity + b.Capacity) -
            (symMerge (elems a) (elems b)).length)
            sentinel).drop (symMerge (elems a) (elems b)).length,
        x = sentinel
      rw [List.drop_left]
      intro x hx
      exact (List.mem_replicate.mp hx).2
  refine ⟨by rw [hres], by rw [hres], by rw [hres]; exact hlen, ?_, ?_, ?_⟩
  · rw [hres]
    exact hprop
  · intro x
    have he3 : elems (CSet_SymDifference true out a b).2 =
        symMerge (elems a) (elems b) := by
      rw [hres]
      exact helems2
    rw [he3]
    exact symMerge_mem (elems a) (elems b) hsa hsb x
  · simp [CSet_SymDifference, symMerge, elems, sentinel]

/-- Witness for C8 on `a = {1,2,3}`, `b = {2,3,4}` with a fresh output. -/
theorem c8_symdifference_correct_witness :
    (CSet_SymDifference true ⟨1, 0, [sentinel]⟩ ⟨3, 3, [1, 2, 3]⟩
      ⟨3, 3, [2, 3, 4]⟩).1 = true ∧
    (CSet_SymDifference true ⟨1, 0, [sentinel]⟩ ⟨3, 3, [1, 2, 3]⟩
      ⟨3, 3, [2, 3, 4]⟩).2.Capacity = 3 + 3 ∧
    Proper (CSet_SymDifference true ⟨1, 0, [sentinel]⟩ ⟨3, 3, [1, 2, 3]⟩
      ⟨3, 3, [2, 3, 4]⟩).2 ∧
    ((1 : Int) ∈ elems (CSet_SymDifference true ⟨1, 0, [sentinel]⟩
        ⟨3, 3, [1, 2, 3]⟩ ⟨3, 3, [2, 3, 4]⟩).2 ↔
      (((1 : Int) ∈ elems ⟨3, 3, [1, 2, 3]⟩ ∧ (1 : Int) ∉ elems ⟨3, 3, [2, 3, 4]⟩) ∨
        ((1 : Int) ∈ elems ⟨3, 3, [2, 3, 4]⟩ ∧ (1 : Int) ∉ elems ⟨3, 3, [1, 2, 3]⟩))) :=
  ⟨(c8_symdifference_correct ⟨1, 0, [sentinel]⟩ ⟨3, 3, [1, 2, 3]⟩
      ⟨3, 3, [2, 3, 4]⟩ (by decide) (by decide)).1,
   (c8_symdifference_correct ⟨1, 0, [sentinel]⟩ ⟨3, 3, [1, 2, 3]⟩
      ⟨3, 3, [2, 3, 4]⟩ (by decide) (by decide)).2.1,
   (c8_symdifference_correct ⟨1, 0, [sentinel]⟩ ⟨3, 3, [1, 2, 3]⟩
      ⟨3, 3, [2, 3, 4]⟩ (by decide) (by decide)).2.2.2.1,
   (c8_symdifference_correct ⟨1, 0, [sentinel]⟩ ⟨3, 3, [1, 2, 3]⟩
      ⟨3, 3, [2, 3, 4]⟩ (by decide) (by decide)).2.2.2.2.1 1⟩
end CSetImpl
